import Mathlib

set_option maxRecDepth 10000

/-!
Verification of the section-detection / snippet-extraction pipeline
(`src/nlp_pipeline.py`).  Strings are modelled as `List Char`; the
optional spaCy model (`nlp`) is modelled as an abstract `Oracle`
parameter (`Option Oracle`): `none` is Oracle-absent mode, `some o`
supplies the three facts the code asks of spaCy.  Character classes
(`isupper`, `islower`, `isalpha`, whitespace, the regex classes) are
modelled at the ASCII level, which is exact for every input considered
here.
-/

/-- ASCII whitespace, as in Python's `str.strip` and the regex class
for whitespace: space, tab, newline, carriage return, vertical tab,
form feed. -/
def pySpace (c : Char) : Bool :=
  c == ' ' || c == '\t' || c == '\n' || c == '\r' || c == '\x0b' || c == '\x0c'

/-- Drop leading whitespace (left part of `str.strip`). -/
def ldropL (l : List Char) : List Char := l.dropWhile pySpace

/-- Drop trailing whitespace (right part of `str.strip`). -/
def rdropL (l : List Char) : List Char := (l.reverse.dropWhile pySpace).reverse

/-- Python `str.strip()`: drop leading and trailing whitespace. -/
def trimL (l : List Char) : List Char := rdropL (ldropL l)

/-- Does `p` occur at the very start of `l`? (Python `startswith`.) -/
def startsWithL : List Char → List Char → Bool
  | [], _ => true
  | _ :: _, [] => false
  | c :: p, d :: l => c == d && startsWithL p l

/-- Python substring test `p in l`. -/
def containsSub (p : List Char) : List Char → Bool
  | [] => startsWithL p []
  | d :: l => startsWithL p (d :: l) || containsSub p l

/-- Python `s.endswith(c)` for a single character. -/
def endsWithChar (l : List Char) (c : Char) : Bool :=
  match l.getLast? with
  | some d => d == c
  | none => false

/-- Generic splitter keeping empty pieces: Python `re.split` on a
single-character class, or `str.split('\n')`.  `acc` is the current
piece reversed. -/
def splitOnPredAux (sep : Char → Bool) : List Char → List Char → List (List Char)
  | acc, [] => [acc.reverse]
  | acc, c :: rest =>
    if sep c then acc.reverse :: splitOnPredAux sep [] rest
    else splitOnPredAux sep (c :: acc) rest

def splitOnPred (sep : Char → Bool) (l : List Char) : List (List Char) :=
  splitOnPredAux sep [] l

/-- Python `str.split('\n')`. -/
def splitNl (l : List Char) : List (List Char) := splitOnPred (fun c => c == '\n') l

/-- Python `str.split()` (no argument): split on whitespace runs,
producing no empty tokens. -/
def pySplitWsAux : List Char → List Char → List (List Char)
  | acc, [] => if acc.isEmpty then [] else [acc.reverse]
  | acc, c :: rest =>
    if pySpace c then
      if acc.isEmpty then pySplitWsAux [] rest
      else acc.reverse :: pySplitWsAux [] rest
    else pySplitWsAux (c :: acc) rest

def pySplitWs (l : List Char) : List (List Char) := pySplitWsAux [] l

/-- Python `max(xs, key=len)` on a nonempty list (first maximum wins;
`[]` for the empty list, on which Python would raise). -/
def pyMaxLenD : List (List Char) → List Char
  | [] => []
  | x :: xs => xs.foldl (fun best l => if best.length < l.length then l else best) x

/-- Python `str.title()`: uppercase every letter that follows a
non-letter, lowercase the rest (ASCII letters). -/
def pyTitleAux : Bool → List Char → List Char
  | _, [] => []
  | prevAlpha, c :: rest =>
    (if c.isAlpha then (if prevAlpha then c.toLower else c.toUpper) else c)
      :: pyTitleAux c.isAlpha rest

def pyTitle (l : List Char) : List Char := pyTitleAux false l

/-! ## Section detector (`UniversalSectionDetector`) -/

/-- Regex `^[A-Z][^\.\n]{10,100}$` under `re.match`: a capital letter
followed by 10 to 100 characters none of which is a period or a
newline, covering the whole line. -/
def pat1 : List Char → Bool
  | [] => false
  | c :: rest =>
    c.isUpper && decide (10 ≤ rest.length) && decide (rest.length ≤ 100) &&
      rest.all (fun d => !(d == '.') && !(d == '\n'))

def pat2Class (d : Char) : Bool :=
  d.isLower || d.isDigit || d == ' ' || d == '-' || d == '&' ||
    d == '(' || d == ')' || d == ',' || d == ':'

/-- Regex `^(?:[A-Z][a-z0-9 \-&\(\),:]{8,120})$`. -/
def pat2 : List Char → Bool
  | [] => false
  | c :: rest =>
    c.isUpper && decide (8 ≤ rest.length) && decide (rest.length ≤ 120) &&
      rest.all pat2Class

/-- One `[A-Z][a-z]+` word of the title-case pattern. -/
def titleWord : List Char → Bool
  | [] => false
  | c :: rest => c.isUpper && !rest.isEmpty && rest.all Char.isLower

/-- Regex `^([A-Z][a-z]+(?: [A-Z][a-z]+)+)$`: two or more title-case
words joined by single spaces. -/
def pat3 (s : List Char) : Bool :=
  let ws := splitOnPred (fun c => c == ' ') s
  decide (2 ≤ ws.length) && ws.all titleWord

/-- Matching of `pat` preceded by a regex dot-star: `pat` occurs after zero or more non-newline
characters. -/
def matchDotStar (pat : List Char) : List Char → Bool
  | [] => startsWithL pat []
  | c :: rest => startsWithL pat (c :: rest) || (!(c == '\n') && matchDotStar pat rest)

/-- Regex `^(?:[A-Za-z].*Guide|Checklist|Tips|Things to Do)` under
`re.match` (prefix match, alternation binding as written). -/
def pat4 (s : List Char) : Bool :=
  (match s with
   | [] => false
   | c :: rest => c.isAlpha && matchDotStar (("Guide").data) rest) ||
  startsWithL (("Checklist").data) s ||
  startsWithL (("Tips").data) s ||
  startsWithL (("Things to Do").data) s

def headerPats : List (List Char → Bool) := [pat1, pat2, pat3, pat4]

def focusKeywords : List (List Char) :=
  [("guide").data, ("how to").data, ("create").data, ("convert").data,
   ("edit").data, ("checklist").data, ("tips").data, ("tricks").data,
   ("introduction").data, ("overview").data, ("summary").data,
   ("activity").data, ("activities").data, ("culinary").data,
   ("nightlife").data, ("entertainment").data, ("forms").data, ("sign").data]

def headingPlaceholders : List (List Char) :=
  [("untitled section").data, ("section").data, ("heading").data, ("index").data]

def headingBullets : List (List Char) := [['•'], ['●'], ['-'], ['*'], ['.']]

/-- Translation of `UniversalSectionDetector._is_heading`. -/
def is_heading (line : List Char) : Bool :=
  if line.isEmpty then false
  else
    let lclean := trimL line
    if headingPlaceholders.contains (lclean.map Char.toLower) then false
    else if headingBullets.contains lclean then false
    else if endsWithChar lclean '.' then false
    else if lclean.length < 10 then false
    else if headerPats.any (fun p => p lclean) then true
    else if focusKeywords.any
        (fun k => containsSub k ((lclean.map Char.toLower).take 50)) then true
    else false

def titleBullets : List (List Char) := [['•'], ['●'], ['-'], ['*']]

def headIsLower : List Char → Bool
  | [] => false
  | c :: _ => c.isLower

/-- Translation of `UniversalSectionDetector._is_usable_title`. -/
def is_usable_title (title : List Char) : Bool :=
  if title.isEmpty then false
  else if title.length < 10 then false
  else
    let t := trimL title
    if (t.map Char.toLower) == ("untitled section").data then false
    else if endsWithChar t '.' || endsWithChar t '*' ||
        endsWithChar t ':' || endsWithChar t ';' then false
    else if titleBullets.contains t then false
    else if !(t.any Char.isAlpha) then false
    else if (t.map Char.toLower) == ("section").data ||
        (t.map Char.toLower) == ("heading").data then false
    else if (pySplitWs t).length < 2 then false
    else if headIsLower t then false
    else true

/-- The three facts `detect_sections` asks of the spaCy model: whether
a line has a NOUN-rooted noun chunk, whether it contains a VERB token,
and the noun-chunk texts of a whole page. -/
structure Oracle where
  hasNounRootChunk : List Char → Bool
  hasVerb : List Char → Bool
  nounChunks : List Char → List (List Char)

/-- Is line `i` collected into `heading_idxs`?  Rule-based test first;
the spaCy noun-phrase test only in the `elif nlp:` branch. -/
def isCandidate (oracle : Option Oracle) (line : List Char) : Bool :=
  if is_heading line then true
  else
    match oracle with
    | none => false
    | some o =>
      decide (10 < line.length) && !(endsWithChar line '.') &&
        o.hasNounRootChunk line && !(o.hasVerb line)

/-- The stripped lines of a page (`lines = [l.strip() for l in page_text.split('\n')]`). -/
def pageLines (page_text : List Char) : List (List Char) :=
  (splitNl page_text).map trimL

/-- The `heading_idxs` list: the candidate indices.  The Python loop appends
indices in increasing order, so `sorted(set(...))` is the filtered
range. -/
def headingIdxs (oracle : Option Oracle) (lines : List (List Char)) : List Nat :=
  (List.range lines.length).filter (fun i => isCandidate oracle (lines.getD i []))

/-- The end boundary of the section starting at the current heading:
the next heading index, or `n` at the last heading. -/
def headBound : List Nat → Nat → Nat
  | [], n => n
  | h :: _, _ => h

/-- Translation of `"\n".join([l for l in lines[a:b] if l.strip()]).strip()`. -/
def sectionBody (lines : List (List Char)) (a b : Nat) : List Char :=
  trimL (List.intercalate ['\n']
    (((lines.drop a).take (b - a)).filter (fun l => !(trimL l).isEmpty)))

/-- The main accumulation loop over `heading_idxs` (steps 4-5): keep a
`(title, content)` pair when the title is usable and the content is at
least 30 characters. -/
def buildSections (lines : List (List Char)) (n : Nat) : List Nat → List (List Char × List Char)
  | [] => []
  | hidx :: rest =>
    if is_usable_title (trimL (lines.getD hidx [])) then
      if (sectionBody lines (hidx + 1) (headBound rest n)).length < 30 then
        buildSections lines n rest
      else
        (trimL (lines.getD hidx []), sectionBody lines (hidx + 1) (headBound rest n))
          :: buildSections lines n rest
    else buildSections lines n rest

/-- The primary heading pass of `detect_sections` (steps 1-5). -/
def primarySections (oracle : Option Oracle) (page_text : List Char) :
    List (List Char × List Char) :=
  buildSections (pageLines page_text) (pageLines page_text).length
    (headingIdxs oracle (pageLines page_text))

/-- Lines eligible for fallback step (a):
`len(l) >= 10 and l not in bullets and l[0].isupper() and " " in l`. -/
def lnbLines (lines : List (List Char)) : List (List Char) :=
  lines.filter (fun l =>
    decide (10 ≤ l.length) && !(titleBullets.contains l) &&
      (match l with | [] => false | c :: _ => c.isUpper) && l.contains ' ')

/-- The fallback ladder body (only reached when the model is loaded):
step (a) longest qualifying line, else step (b) first usable
title-cased noun chunk. -/
def fallbackSects (o : Oracle) (lines : List (List Char)) (page_text : List Char) :
    List (List Char × List Char) :=
  if lnbLines lines ≠ [] then
    if is_usable_title (pyMaxLenD (lnbLines lines)) then
      [(pyMaxLenD (lnbLines lines), trimL page_text)]
    else []
  else
    match (((o.nounChunks page_text).filter
        (fun c => decide (12 < (trimL c).length))).map
        (fun c => pyTitle (trimL c))).find? (fun c => is_usable_title c) with
    | some p => [(p, trimL page_text)]
    | none => []

/-- Translation of `UniversalSectionDetector.detect_sections`. -/
def detect_sections (oracle : Option Oracle) (page_text : List Char) :
    List (List Char × List Char) :=
  let sections := primarySections oracle page_text
  let sections2 :=
    match oracle with
    | none => sections
    | some o =>
      if sections = [] ∧ trimL page_text ≠ [] then
        fallbackSects o (pageLines page_text) page_text
      else sections
  if sections2 = [] ∧ 30 ≤ (trimL page_text).length then [] else sections2

/-! ## Text processor (`UniversalTextProcessor`) -/

/-- The `string.punctuation` set: the 32 ASCII punctuation characters removed
by `clean_text` (backtick and braces written as escapes). -/
def pyPunct : List Char :=
  ['!', '"', '#', '$', '%', '&', '\'', '(', ')', '*', '+', ',', '-', '.', '/',
   ':', ';', '<', '=', '>', '?', '@', '[', '\\', ']', '^', '_', '\x60',
   '\x7b', '|', '\x7d', '~']

/-- One pass of `re.sub(r'\s+', ' ', text)`: replace each maximal
whitespace run by a single space.  The flag records whether the
previous character was whitespace. -/
def collapseWsAux : Bool → List Char → List Char
  | _, [] => []
  | prev, c :: rest =>
    if pySpace c then
      if prev then collapseWsAux true rest else ' ' :: collapseWsAux true rest
    else c :: collapseWsAux false rest

def collapseWs (l : List Char) : List Char := collapseWsAux false l

/-- Translation of `UniversalTextProcessor.clean_text`: lowercase, remove punctuation,
collapse whitespace runs, strip. -/
def clean_text (text : List Char) : List Char :=
  trimL (collapseWs ((text.map Char.toLower).filter (fun c => !(pyPunct.contains c))))

/-- Translation of `UniversalTextProcessor._classify_section_type` (the body argument
is accepted but unused, as in the source). -/
def classify_section_type (title : List Char) (content : List Char) : List Char :=
  let t := title.map Char.toLower
  if containsSub (("guide").data) t then ("guide").data
  else if containsSub (("convert").data) t || containsSub (("export").data) t then
    ("conversion").data
  else if containsSub (("sign").data) t || containsSub (("signature").data) t then
    ("signatures").data
  else if containsSub (("checklist").data) t then ("checklist").data
  else if containsSub (("activity").data) t || containsSub (("things to do").data) t then
    ("activity").data
  else if containsSub (("packing").data) t then ("tips").data
  else if containsSub (("tips").data) t || containsSub (("trick").data) t then
    ("tips").data
  else if containsSub (("nightlife").data) t || containsSub (("entertainment").data) t then
    ("entertainment").data
  else ("content").data

/-- The classifier's keyword rules as an ordered table (the spec's
`§4.2` description): predicate on the lowercased title, label. -/
def classifyRules : List ((List Char → Bool) × List Char) :=
  [(fun t => containsSub (("guide").data) t, ("guide").data),
   (fun t => containsSub (("convert").data) t || containsSub (("export").data) t,
     ("conversion").data),
   (fun t => containsSub (("sign").data) t || containsSub (("signature").data) t,
     ("signatures").data),
   (fun t => containsSub (("checklist").data) t, ("checklist").data),
   (fun t => containsSub (("activity").data) t || containsSub (("things to do").data) t,
     ("activity").data),
   (fun t => containsSub (("packing").data) t, ("tips").data),
   (fun t => containsSub (("tips").data) t || containsSub (("trick").data) t,
     ("tips").data),
   (fun t => containsSub (("nightlife").data) t || containsSub (("entertainment").data) t,
     ("entertainment").data)]

/-- First-match-wins evaluation of an ordered rule table, defaulting to
`"content"` (the spec's description of the classifier). -/
def firstMatchRule (t : List Char) : List ((List Char → Bool) × List Char) → List Char
  | [] => ("content").data
  | (p, lab) :: rest => if p t then lab else firstMatchRule t rest

/-! ## Snippet extractor (`extract_refined_snippet`) -/

/-- The candidate sentences: split the body on `'.'` or newline, strip,
keep those of length `> 10`. -/
def sentencesOf (body : List Char) : List (List Char) :=
  ((splitOnPred (fun c => c == '.' || c == '\n') body).map trimL).filter
    (fun s => decide (10 < s.length))

/-- Oracle-absent relevance: the number of distinct case-insensitive
whitespace tokens of the sentence that lie in the query's word set
(`len(set(s.lower().split()) & qwords)`). -/
def overlapKey (qwords : List (List Char)) (s : List Char) : Nat :=
  (((pySplitWs (s.map Char.toLower)).dedup).filter (fun w => qwords.contains w)).length

/-- Stable insertion for a descending sort: a new element goes after
every earlier element whose key is at least as large, as Python's
stable `sorted(..., reverse=True)` places it. -/
def insertDesc {α : Type} (key : α → Nat) (x : α) : List α → List α
  | [] => [x]
  | y :: ys => if key y < key x then x :: y :: ys else y :: insertDesc key x ys

/-- Python `sorted(l, key=key, reverse=True)`: stable descending sort. -/
def sortDesc {α : Type} (key : α → Nat) (l : List α) : List α :=
  l.foldl (fun acc x => insertDesc key x acc) []

/-- The ranked sentence list.  With the model present the key is the
similarity of each sentence to `nlp((persona + " " + query).strip())`,
abstracted as a per-sentence score `f`; without it, word overlap with
the query. -/
def rankedOf (sim : Option (List Char → Nat)) (query : List Char)
    (sentences : List (List Char)) : List (List Char) :=
  match sim with
  | some f => sortDesc f sentences
  | none => sortDesc (overlapKey (pySplitWs (query.map Char.toLower))) sentences

/-- The greedy assembly loop: append `sent + ". "` while the buffer
stays within `max_length`, stop at the first overflow. -/
def greedy (maxlen : Nat) : List Char → List (List Char) → List Char
  | r, [] => r
  | r, s :: rest =>
    if r.length + s.length + 2 ≤ maxlen then greedy maxlen (r ++ s ++ ('.' :: ' ' :: [])) rest
    else r

def hrNote : List Char := ("For HR professionals: ").data

def travelNote : List Char := ("Travel planner note: ").data

/-- The persona annotation block (`if persona and result:` with the two
independent substring checks, HR applied first). -/
def personaAnnot (persona result : List Char) : List Char :=
  if persona ≠ [] ∧ result ≠ [] then
    let r1 := if containsSub (("HR").data) persona then hrNote ++ result else result
    if containsSub (("Travel").data) persona then travelNote ++ r1 else r1
  else result

/-- Translation of `UniversalTextProcessor.extract_refined_snippet`. -/
def extract_refined_snippet (sim : Option (List Char → Nat))
    (section_text query_vector persona : List Char) (max_length : Nat) : List Char :=
  if trimL section_text = [] then []
  else if sentencesOf section_text = [] then section_text.take max_length
  else
    let result := greedy max_length [] (rankedOf sim query_vector (sentencesOf section_text))
    let result2 := personaAnnot persona result
    if result2 ≠ [] then trimL result2
    else ((sentencesOf section_text).headD []).take max_length

/-! ## Every emitted title passes the usable-title predicate -/

theorem buildSections_mem_usable (lines : List (List Char)) (n : Nat) :
    ∀ (idxs : List Nat) (t b : List Char), (t, b) ∈ buildSections lines n idxs →
      is_usable_title t = true
  | [], t, b, h => by simp [buildSections] at h
  | hidx :: rest, t, b, h => by
    simp only [buildSections] at h
    split at h
    · rename_i husable
      split at h
      · exact buildSections_mem_usable lines n rest t b h
      · rcases List.mem_cons.mp h with heq | h
        · rw [Prod.mk.injEq] at heq
          rw [heq.1]
          exact husable
        · exact buildSections_mem_usable lines n rest t b h
    · exact buildSections_mem_usable lines n rest t b h

theorem fallbackSects_mem_usable (o : Oracle) (lines : List (List Char))
    (pt t b : List Char) (h : (t, b) ∈ fallbackSects o lines pt) :
    is_usable_title t = true := by
  simp only [fallbackSects] at h
  split at h
  · split at h
    · rename_i husable
      have heq := List.mem_singleton.mp h
      rw [Prod.mk.injEq] at heq
      rw [heq.1]
      exact husable
    · simp at h
  · split at h
    · rename_i p hfind
      have hp := List.find?_some hfind
      have heq := List.mem_singleton.mp h
      rw [Prod.mk.injEq] at heq
      rw [heq.1]
      exact hp
    · simp at h

/-! ## Blank pages -/

theorem splitOnPredAux_all_space (sep : Char → Bool) :
    ∀ (l acc : List Char), l.all pySpace = true → acc.all pySpace = true →
      ∀ p ∈ splitOnPredAux sep acc l, p.all pySpace = true
  | [], acc, _, hacc, p, hp => by
    simp only [splitOnPredAux, List.mem_singleton] at hp
    subst hp
    simpa using hacc
  | c :: rest, acc, hl, hacc, p, hp => by
    rw [List.all_cons, Bool.and_eq_true] at hl
    simp only [splitOnPredAux] at hp
    split at hp
    · rcases List.mem_cons.mp hp with rfl | hp
      · simpa using hacc
      · exact splitOnPredAux_all_space sep rest [] hl.2 (by simp) p hp
    · refine splitOnPredAux_all_space sep rest (c :: acc) hl.2 ?_ p hp
      rw [List.all_cons, Bool.and_eq_true]
      exact ⟨hl.1, hacc⟩

theorem trimL_all_space (l : List Char) (h : l.all pySpace = true) : trimL l = [] := by
  have hld : ldropL l = [] := by
    rw [ldropL, List.dropWhile_eq_nil_iff]
    intro x hx
    exact (List.all_eq_true.mp h) x hx
  rw [trimL, hld]
  rfl

theorem isCandidate_nil (oracle : Option Oracle) : isCandidate oracle [] = false := by
  cases oracle with
  | none => rfl
  | some o => simp [isCandidate, is_heading]

theorem getD_all_nil : ∀ (ls : List (List Char)), (∀ x ∈ ls, x = []) →
    ∀ (i : Nat), ls.getD i [] = []
  | [], _, i => by cases i <;> rfl
  | x :: ls, h, 0 => by simpa using h x (by simp)
  | x :: ls, h, (i + 1) => by
    rw [List.getD_cons_succ]
    exact getD_all_nil ls (fun y hy => h y (by simp [hy])) i

theorem headingIdxs_of_blank (oracle : Option Oracle) (lines : List (List Char))
    (h : ∀ x ∈ lines, x = []) : headingIdxs oracle lines = [] := by
  simp only [headingIdxs]
  rw [List.filter_eq_nil_iff]
  intro i _
  rw [getD_all_nil lines h i, isCandidate_nil]
  simp

/-! ## Concrete inputs used by the claims -/

/-- An oracle that reports no noun chunks and no verbs: the weakest
loaded model.  Used to witness Oracle-present behaviour that does not
depend on the model's answers. -/
def trivOracle : Oracle := ⟨fun _ => false, fun _ => false, fun _ => []⟩

/-- The spec's two-heading example page. -/
def pageC1 : List Char :=
  ("Packing Checklist\nBring sunscreen and a hat.\nTravel Tips For Families\nBook early and travel light.").data

/-- The same page with each heading's body lengthened past the 30
character minimum. -/
def pageC1b : List Char :=
  ("Packing Checklist\nBring sunscreen and a hat plus comfortable walking shoes.\nTravel Tips For Families\nBook early and travel light to keep the whole family happy.").data

/-- A page whose primary pass finds one heading with an empty body, so
it yields zero sections, while the page qualifies for fallback step (a). -/
def pageC2 : List Char :=
  ("Everything you need to know about packing for a trip").data

/-- A page with one well-formed heading and a long body. -/
def pageC5 : List Char :=
  ("Packing Checklist Essentials\nBring plenty of sunscreen lotion and water bottles for everyone.").data

/-- Body whose top-ranked sentence (for `queryC3`) is its second
sentence; both sentences exceed a budget of 15. -/
def bodyC3 : List Char := ("alpha beta gamma delta. query words match here now").data

def queryC3 : List Char := ("query words match").data

/-- Body with two short sentences, the second one query-relevant. -/
def bodyC4 : List Char := ("cats are nice animals. dogs are loyal friends.").data

def queryC4 : List Char := ("dogs loyal").data

/-! ## Claim theorems -/

/-- C8: the section classifier agrees with first-match-wins evaluation
of the ordered rule table guide, conversion, signatures, checklist,
activity, packing-as-tips, tips, entertainment, default content; in
particular a title containing both "guide" and "checklist" classifies
as "guide". -/
theorem c8_classifier_first_match :
    (∀ title content, classify_section_type title content =
        firstMatchRule (title.map Char.toLower) classifyRules) ∧
    (∀ content, classify_section_type (("Packing Guide Checklist").data) content =
        ("guide").data) := by
  constructor
  · intro title content
    rfl
  · intro content
    rfl

/-- C1 counterexample: on the spec's example page, `detect_sections`
returns the empty list (in Oracle-absent mode and under a loaded
model alike), not two sections titled "Packing Checklist" and
"Travel Tips For Families". -/
theorem c1_counterexample :
    detect_sections none pageC1 = [] ∧
    detect_sections (some trivOracle) pageC1 = [] ∧
    (detect_sections none pageC1).map Prod.fst ≠
      [("Packing Checklist").data, ("Travel Tips For Families").data] :=
  ⟨by decide, by decide, by decide⟩

/-- C1 amended: on the spec's example page both candidate bodies are
shorter than 30 characters and the fallback's longest line ends in a
period, so `detect_sections` returns `[]`; with each body lengthened
to at least 30 characters it returns exactly the two sections, in
top-to-bottom order, with titles "Packing Checklist" and
"Travel Tips For Families". -/
theorem c1_amended :
    detect_sections none pageC1 = [] ∧
    detect_sections none pageC1b =
      [(("Packing Checklist").data,
        ("Bring sunscreen and a hat plus comfortable walking shoes.").data),
       (("Travel Tips For Families").data,
        ("Book early and travel light to keep the whole family happy.").data)] ∧
    detect_sections (some trivOracle) pageC1b =
      [(("Packing Checklist").data,
        ("Bring sunscreen and a hat plus comfortable walking shoes.").data),
       (("Travel Tips For Families").data,
        ("Book early and travel light to keep the whole family happy.").data)] :=
  ⟨by decide, by decide, by decide⟩

/-- C2 counterexample: `pageC2` satisfies every condition of the claim
(primary pass empty, non-blank text, a qualifying line whose longest
representative passes the usable-title predicate), yet with the Oracle
absent `detect_sections` returns `[]` instead of the promised single
section — the `nlp` guard on line 47 skips the whole fallback ladder. -/
theorem c2_counterexample :
    primarySections none pageC2 = [] ∧
    trimL pageC2 ≠ [] ∧
    lnbLines (pageLines pageC2) ≠ [] ∧
    is_usable_title (pyMaxLenD (lnbLines (pageLines pageC2))) = true ∧
    detect_sections none pageC2 = [] :=
  ⟨by decide, by decide, by decide, by decide, by decide⟩

/-- C2 amended: the entire fallback ladder, step (a) included, runs
only when the Oracle is present.  With the Oracle absent, a page whose
primary pass yields zero sections gets `[]`.  With the Oracle present,
if the primary pass yields zero sections, the text is non-blank, some
qualifying line (length at least 10, not a bare bullet, uppercase
start, containing a space) exists, and the longest such line passes
the usable-title predicate, then exactly one section is emitted whose
title is that line and whose body is the trimmed page text. -/
theorem c2_amended :
    (∀ page_text : List Char, primarySections none page_text = [] →
      detect_sections none page_text = []) ∧
    (∀ (o : Oracle) (page_text : List Char),
      primarySections (some o) page_text = [] →
      trimL page_text ≠ [] →
      lnbLines (pageLines page_text) ≠ [] →
      is_usable_title (pyMaxLenD (lnbLines (pageLines page_text))) = true →
      detect_sections (some o) page_text =
        [(pyMaxLenD (lnbLines (pageLines page_text)), trimL page_text)]) := by
  constructor
  · intro page_text h
    simp only [detect_sections, h]
    split <;> rfl
  · intro o page_text h1 h2 h3 h4
    simp [detect_sections, fallbackSects, h1, h2, h3, h4]

/-- C2 witness: both parts of the amended claim instantiated at
`pageC2`, whose primary pass yields zero sections. -/
theorem c2_witness :
    detect_sections none pageC2 = [] ∧
    detect_sections (some trivOracle) pageC2 = [(pageC2, pageC2)] := by
  constructor
  · exact c2_amended.1 pageC2 (by decide)
  · have h := c2_amended.2 trivOracle pageC2 (by decide) (by decide) (by decide) (by decide)
    simpa using h

/-! ## Stability of the descending sort -/

theorem mem_insertDesc {α : Type} (key : α → Nat) (x a : α) (l : List α) :
    a ∈ insertDesc key x l ↔ a = x ∨ a ∈ l := by
  induction l with
  | nil => simp [insertDesc]
  | cons y ys ih =>
    simp only [insertDesc]
    split
    · simp only [List.mem_cons]
    · simp only [List.mem_cons, ih]
      tauto

theorem pairwise_insertDesc {α : Type} (key : α → Nat) (x : α) (l : List α)
    (h : l.Pairwise (fun a b => key b ≤ key a)) :
    (insertDesc key x l).Pairwise (fun a b => key b ≤ key a) := by
  induction l with
  | nil => simp [insertDesc]
  | cons y ys ih =>
    rw [List.pairwise_cons] at h
    obtain ⟨hy, hys⟩ := h
    simp only [insertDesc]
    split
    · rename_i hlt
      refine List.Pairwise.cons ?_ (List.Pairwise.cons hy hys)
      intro b hb
      rcases List.mem_cons.mp hb with rfl | hb
      · omega
      · have := hy b hb
        omega
    · rename_i hge
      refine List.Pairwise.cons ?_ (ih hys)
      intro b hb
      rcases (mem_insertDesc key x b ys).mp hb with rfl | hb
      · omega
      · exact hy b hb

theorem filter_insertDesc {α : Type} (key : α → Nat) (k : Nat) (x : α) (l : List α)
    (h : l.Pairwise (fun a b => key b ≤ key a)) :
    (insertDesc key x l).filter (fun y => key y == k) =
      (if key x = k then l.filter (fun y => key y == k) ++ [x]
       else l.filter (fun y => key y == k)) := by
  induction l with
  | nil =>
    by_cases hx : key x = k <;> simp [insertDesc, List.filter_cons, hx]
  | cons y ys ih =>
    rw [List.pairwise_cons] at h
    obtain ⟨hy, hys⟩ := h
    simp only [insertDesc]
    split
    · rename_i hlt
      by_cases hx : key x = k
      · have hnil : (y :: ys).filter (fun z => key z == k) = [] := by
          rw [List.filter_eq_nil_iff]
          intro b hb
          rcases List.mem_cons.mp hb with rfl | hb
          · simp only [beq_iff_eq]
            omega
          · have := hy b hb
            simp only [beq_iff_eq]
            omega
        simp [List.filter_cons, hx, hnil]
      · simp [List.filter_cons, hx]
    · rename_i hge
      by_cases hx : key x = k <;>
        by_cases hky : key y = k <;>
          simp [List.filter_cons, hx, hky, ih hys]

theorem filter_foldl_insertDesc {α : Type} (key : α → Nat) (k : Nat) :
    ∀ (xs acc : List α), acc.Pairwise (fun a b => key b ≤ key a) →
      (xs.foldl (fun acc x => insertDesc key x acc) acc).filter (fun y => key y == k) =
        acc.filter (fun y => key y == k) ++ xs.filter (fun y => key y == k)
  | [], acc, h => by simp
  | x :: xs, acc, h => by
    simp only [List.foldl_cons]
    rw [filter_foldl_insertDesc key k xs (insertDesc key x acc)
      (pairwise_insertDesc key x acc h)]
    rw [filter_insertDesc key k x acc h]
    by_cases hx : key x = k <;> simp [hx, List.filter_cons]

/-- Python's `sorted` is stable: the elements whose key equals any
fixed value appear in `sortDesc` exactly as they appear in the input. -/
theorem sortDesc_stable {α : Type} (key : α → Nat) (l : List α) (k : Nat) :
    (sortDesc key l).filter (fun y => key y == k) = l.filter (fun y => key y == k) := by
  have h := filter_foldl_insertDesc key k l [] (by simp)
  simpa [sortDesc] using h

/-- C10: in Oracle-absent mode the word-overlap ranking is a stable
descending sort — for every body and query, the candidate sentences
with any given overlap count appear in the ranked list in exactly the
order they occur in the body's sentence list. -/
theorem c10_overlap_ranking_stable (body query : List Char) (k : Nat) :
    (rankedOf none query (sentencesOf body)).filter
      (fun s => overlapKey (pySplitWs (query.map Char.toLower)) s == k) =
    (sentencesOf body).filter
      (fun s => overlapKey (pySplitWs (query.map Char.toLower)) s == k) :=
  sortDesc_stable (overlapKey (pySplitWs (query.map Char.toLower))) (sentencesOf body) k

/-! ## Length bound of the snippet extractor -/

theorem ldropL_length_le (l : List Char) : (ldropL l).length ≤ l.length :=
  (List.dropWhile_sublist pySpace).length_le

theorem rdropL_length_le (l : List Char) : (rdropL l).length ≤ l.length := by
  have h : (List.dropWhile pySpace l.reverse).Sublist l.reverse :=
    List.dropWhile_sublist pySpace
  simpa [rdropL] using h.length_le

theorem trimL_length_le (l : List Char) : (trimL l).length ≤ l.length :=
  le_trans (rdropL_length_le (ldropL l)) (ldropL_length_le l)

theorem greedy_length_le (maxlen : Nat) :
    ∀ (l : List (List Char)) (r : List Char), r.length ≤ maxlen →
      (greedy maxlen r l).length ≤ maxlen
  | [], _, h => h
  | s :: rest, r, h => by
    simp only [greedy]
    split
    · rename_i hfit
      refine greedy_length_le maxlen rest _ ?_
      simp only [List.append_assoc, List.length_append, List.length_cons, List.length_nil]
      omega
    · exact h

/-- C6: the greedy pass appends a ranked sentence only when the buffer
plus the sentence plus the two-character separator still fits in
`max_length`, stopping at the first overflow; consequently every call
with an empty persona returns a string of length at most `max_length`. -/
theorem c6_greedy_respects_budget :
    (∀ (maxlen : Nat) (r s : List Char) (rest : List (List Char)),
      greedy maxlen r (s :: rest) =
        if r.length + s.length + 2 ≤ maxlen then
          greedy maxlen (r ++ s ++ ('.' :: ' ' :: [])) rest
        else r) ∧
    (∀ (sim : Option (List Char → Nat)) (body query : List Char) (maxlen : Nat),
      (extract_refined_snippet sim body query [] maxlen).length ≤ maxlen) := by
  constructor
  · intro maxlen r s rest
    rfl
  · intro sim body query maxlen
    simp only [extract_refined_snippet, personaAnnot]
    split
    · simp
    · split
      · simp only [List.length_take]
        omega
      · simp only [ne_eq, not_true_eq_false, false_and, if_false]
        split
        · exact le_trans (trimL_length_le _)
            (greedy_length_le maxlen _ [] (Nat.zero_le maxlen))
        · simp only [List.length_take]
          omega

/-- C5: every title in the list returned by `detect_sections` —
whether from the primary heading pass or from either step of the
fallback ladder — satisfies the usable-title predicate. -/
theorem c5_titles_usable (oracle : Option Oracle) (page_text t b : List Char)
    (h : (t, b) ∈ detect_sections oracle page_text) : is_usable_title t = true := by
  cases oracle with
  | none =>
    have hd : detect_sections none page_text =
        (if primarySections none page_text = [] ∧ 30 ≤ (trimL page_text).length then []
         else primarySections none page_text) := by
      simp only [detect_sections]
    rw [hd] at h
    by_cases hp : primarySections none page_text = [] ∧ 30 ≤ (trimL page_text).length
    · rw [if_pos hp] at h
      simp at h
    · rw [if_neg hp] at h
      exact buildSections_mem_usable _ _ _ t b h
  | some o =>
    by_cases hc : primarySections (some o) page_text = [] ∧ trimL page_text ≠ []
    · have hd : detect_sections (some o) page_text =
          (if fallbackSects o (pageLines page_text) page_text = [] ∧
              30 ≤ (trimL page_text).length then []
           else fallbackSects o (pageLines page_text) page_text) := by
        simp only [detect_sections, if_pos hc]
      rw [hd] at h
      by_cases hf : fallbackSects o (pageLines page_text) page_text = [] ∧
          30 ≤ (trimL page_text).length
      · rw [if_pos hf] at h
        simp at h
      · rw [if_neg hf] at h
        exact fallbackSects_mem_usable o _ page_text t b h
    · have hd : detect_sections (some o) page_text =
          (if primarySections (some o) page_text = [] ∧
              30 ≤ (trimL page_text).length then []
           else primarySections (some o) page_text) := by
        simp only [detect_sections, if_neg hc]
      rw [hd] at h
      by_cases hp : primarySections (some o) page_text = [] ∧ 30 ≤ (trimL page_text).length
      · rw [if_pos hp] at h
        simp at h
      · rw [if_neg hp] at h
        exact buildSections_mem_usable _ _ _ t b h

/-- C5 witness: the section detected on `pageC5` carries a usable
title. -/
theorem c5_witness : is_usable_title (("Packing Checklist Essentials").data) = true :=
  c5_titles_usable none pageC5 (("Packing Checklist Essentials").data)
    (("Bring plenty of sunscreen lotion and water bottles for everyone.").data)
    (by decide)

/-- C7: for every page text that is empty or consists only of
whitespace, `detect_sections` returns the empty list, with or without
the Oracle. -/
theorem c7_blank_page_empty (oracle : Option Oracle) (page_text : List Char)
    (h : page_text.all pySpace = true) : detect_sections oracle page_text = [] := by
  have hlines : ∀ x ∈ pageLines page_text, x = [] := by
    intro x hx
    simp only [pageLines, List.mem_map] at hx
    obtain ⟨p, hp, rfl⟩ := hx
    exact trimL_all_space p
      (splitOnPredAux_all_space (fun c => c == '\n') page_text [] h (by simp) p hp)
  have hprim : primarySections oracle page_text = [] := by
    simp [primarySections, headingIdxs_of_blank oracle _ hlines, buildSections]
  have htrim : trimL page_text = [] := trimL_all_space page_text h
  cases oracle with
  | none => simp [detect_sections, hprim]
  | some o => simp [detect_sections, hprim, htrim]

/-- C7 witness: a whitespace-only page yields no sections. -/
theorem c7_witness : detect_sections none ((" \t \n  \n ").data) = [] :=
  c7_blank_page_empty none ((" \t \n  \n ").data) (by decide)

/-! ## The empty-buffer fallback and the persona annotation -/

theorem mem_of_mem_splitOnPredAux (sep : Char → Bool) :
    ∀ (l acc p : List Char), p ∈ splitOnPredAux sep acc l → ∀ c ∈ p, c ∈ acc ∨ c ∈ l
  | [], acc, p, hp, c, hc => by
    simp only [splitOnPredAux, List.mem_singleton] at hp
    subst hp
    exact Or.inl (List.mem_reverse.mp hc)
  | d :: rest, acc, p, hp, c, hc => by
    simp only [splitOnPredAux] at hp
    split at hp
    · rcases List.mem_cons.mp hp with rfl | hp
      · exact Or.inl (List.mem_reverse.mp hc)
      · rcases mem_of_mem_splitOnPredAux sep rest [] p hp c hc with h | h
        · simp at h
        · exact Or.inr (by simp [h])
    · rcases mem_of_mem_splitOnPredAux sep rest (d :: acc) p hp c hc with h | h
      · rcases List.mem_cons.mp h with rfl | h
        · exact Or.inr (by simp)
        · exact Or.inl h
      · exact Or.inr (by simp [h])

theorem all_space_of_trimL_eq_nil (l : List Char) (h : trimL l = []) :
    l.all pySpace = true := by
  have hX : (ldropL l).all pySpace = true := by
    have h1 : (ldropL l).reverse.dropWhile pySpace = [] := by
      have h2 := congrArg List.reverse h
      simpa [trimL, rdropL] using h2
    have h2 := List.dropWhile_eq_nil_iff.mp h1
    rw [List.all_eq_true]
    intro x hx
    exact h2 x (List.mem_reverse.mpr hx)
  rw [List.all_eq_true]
  intro x hx
  rw [← List.takeWhile_append_dropWhile pySpace l] at hx
  rcases List.mem_append.mp hx with hx | hx
  · exact List.mem_takeWhile_imp hx
  · exact (List.all_eq_true.mp hX) x hx

theorem trimL_ne_nil_of_sentences (body : List Char) (h : sentencesOf body ≠ []) :
    trimL body ≠ [] := by
  intro hb
  apply h
  have hall : body.all pySpace = true := all_space_of_trimL_eq_nil body hb
  simp only [sentencesOf]
  rw [List.filter_eq_nil_iff]
  intro s hs
  simp only [List.mem_map] at hs
  obtain ⟨p, hp, rfl⟩ := hs
  have hps : p.all pySpace = true :=
    splitOnPredAux_all_space (fun c => c == '.' || c == '\n') body [] hall (by simp) p hp
  rw [trimL_all_space p hps]
  simp

theorem rankedOf_nil (sim : Option (List Char → Nat)) (query : List Char) :
    rankedOf sim query [] = [] := by
  cases sim <;> rfl

theorem greedy_append_struct (maxlen : Nat) :
    ∀ (l : List (List Char)) (r : List Char), ∃ q, greedy maxlen r l = r ++ q
  | [], r => ⟨[], by simp [greedy]⟩
  | s :: rest, r => by
    simp only [greedy]
    split
    · obtain ⟨q, hq⟩ := greedy_append_struct maxlen rest (r ++ s ++ ('.' :: ' ' :: []))
      refine ⟨s ++ ('.' :: ' ' :: []) ++ q, ?_⟩
      rw [hq]
      simp [List.append_assoc]
    · exact ⟨[], by simp⟩

theorem greedy_ne_nil_dot (maxlen : Nat) :
    ∀ (l : List (List Char)), greedy maxlen [] l ≠ [] → '.' ∈ greedy maxlen [] l
  | [], h => absurd rfl h
  | s :: rest, h => by
    simp only [greedy] at h ⊢
    split at h
    · rename_i hfit
      rw [if_pos hfit]
      obtain ⟨q, hq⟩ := greedy_append_struct maxlen rest ([] ++ s ++ ('.' :: ' ' :: []))
      rw [hq]
      simp
    · exact absurd rfl h

theorem dropWhile_append_of_ne_all (p : Char → Bool) :
    ∀ (l m : List Char), ¬ (l.all p = true) →
      List.dropWhile p (l ++ m) = List.dropWhile p l ++ m
  | [], _, h => absurd rfl h
  | c :: l, m, h => by
    rw [List.cons_append, List.dropWhile_cons, List.dropWhile_cons]
    by_cases hc : p c = true
    · rw [if_pos hc, if_pos hc]
      refine dropWhile_append_of_ne_all p l m ?_
      intro hl
      apply h
      rw [List.all_cons, Bool.and_eq_true]
      exact ⟨hc, hl⟩
    · rw [if_neg hc, if_neg hc, List.cons_append]

theorem rdropL_append (pre b : List Char) (h : ¬ (b.all pySpace = true)) :
    rdropL (pre ++ b) = pre ++ rdropL b := by
  have hrev : ¬ (b.reverse.all pySpace = true) := by
    rw [List.all_reverse]
    exact h
  simp [rdropL, List.reverse_append,
    dropWhile_append_of_ne_all pySpace b.reverse pre.reverse hrev]

theorem trimL_cons_append (c : Char) (pre b : List Char) (hc : pySpace c = false)
    (hb : ¬ (b.all pySpace = true)) :
    trimL ((c :: pre) ++ b) = (c :: pre) ++ rdropL b := by
  have h1 : ldropL ((c :: pre) ++ b) = (c :: pre) ++ b := by
    simp [ldropL, List.dropWhile_cons, hc]
  rw [trimL, h1]
  exact rdropL_append (c :: pre) b hb

theorem containsSub_ne_nil (c : Char) (p l : List Char)
    (h : containsSub (c :: p) l = true) : l ≠ [] := by
  intro hl
  subst hl
  simp [containsSub, startsWithL] at h

/-- Unfolding of the extractor once past the two early returns. -/
theorem extract_eq_of_buffer (sim : Option (List Char → Nat))
    (body query persona : List Char) (maxlen : Nat)
    (hb : trimL body ≠ []) (h1 : sentencesOf body ≠ []) :
    extract_refined_snippet sim body query persona maxlen =
      (if personaAnnot persona (greedy maxlen [] (rankedOf sim query (sentencesOf body))) ≠ []
       then trimL (personaAnnot persona
         (greedy maxlen [] (rankedOf sim query (sentencesOf body))))
       else ((sentencesOf body).headD []).take maxlen) := by
  simp only [extract_refined_snippet]
  rw [if_neg hb, if_neg h1]

/-- C3 counterexample: for `bodyC3` / `queryC3` with budget 15, the
greedy buffer is empty, the top-ranked sentence is the second one, yet
the extractor returns the truncation of the first sentence in document
order, not of the top-ranked sentence. -/
theorem c3_counterexample :
    (rankedOf none queryC3 (sentencesOf bodyC3)).headD [] =
      ("query words match here now").data ∧
    greedy 15 [] (rankedOf none queryC3 (sentencesOf bodyC3)) = [] ∧
    extract_refined_snippet none bodyC3 queryC3 [] 15 = ("alpha beta gamm").data ∧
    extract_refined_snippet none bodyC3 queryC3 [] 15 ≠
      ((rankedOf none queryC3 (sentencesOf bodyC3)).headD []).take 15 :=
  ⟨by decide, by decide, by decide, by decide⟩

/-- C3 amended: when at least one candidate sentence exists but the
greedy pass produces an empty buffer, `extract_refined_snippet`
returns the first `max_length` characters of the first candidate
sentence in document order (`sentences[0]`), not of the top-ranked
sentence. -/
theorem c3_empty_buffer_truncation (sim : Option (List Char → Nat))
    (body query persona : List Char) (maxlen : Nat)
    (h1 : sentencesOf body ≠ [])
    (h2 : greedy maxlen [] (rankedOf sim query (sentencesOf body)) = []) :
    extract_refined_snippet sim body query persona maxlen =
      ((sentencesOf body).headD []).take maxlen := by
  have hb : trimL body ≠ [] := trimL_ne_nil_of_sentences body h1
  rw [extract_eq_of_buffer sim body query persona maxlen hb h1, h2]
  simp [personaAnnot]

/-- C3 witness: the amended claim instantiated at `bodyC3`. -/
theorem c3_witness :
    extract_refined_snippet none bodyC3 queryC3 [] 15 =
      ((sentencesOf bodyC3).headD []).take 15 :=
  c3_empty_buffer_truncation none bodyC3 queryC3 [] 15 (by decide) (by decide)

/-- C4 counterexample: with persona "HR Manager" and a budget that
forces the empty-buffer truncation fallback, the extractor produces a
non-empty snippet that does not begin with "For HR professionals: " —
the fallback bypasses the persona annotation. -/
theorem c4_counterexample :
    containsSub (("HR").data) (("HR Manager").data) = true ∧
    extract_refined_snippet none bodyC3 queryC3 (("HR Manager").data) 15 =
      ("alpha beta gamm").data ∧
    extract_refined_snippet none bodyC3 queryC3 (("HR Manager").data) 15 ≠ [] ∧
    startsWithL hrNote
      (extract_refined_snippet none bodyC3 queryC3 (("HR Manager").data) 15) = false :=
  ⟨by decide, by decide, by decide, by decide⟩

/-- C4 amended: when the greedy pass produces a non-empty buffer, a
persona containing "HR" but not "Travel" yields a snippet beginning
with "For HR professionals: ", and a persona containing "Travel"
yields one beginning with "Travel planner note: " (outermost when both
substrings occur); the truncation fallbacks carry no persona
annotation. -/
theorem c4_persona_tagging (sim : Option (List Char → Nat))
    (body query persona : List Char) (maxlen : Nat)
    (hres : greedy maxlen [] (rankedOf sim query (sentencesOf body)) ≠ []) :
    (containsSub (("HR").data) persona = true →
      containsSub (("Travel").data) persona = false →
      ∃ q, extract_refined_snippet sim body query persona maxlen = hrNote ++ q) ∧
    (containsSub (("Travel").data) persona = true →
      ∃ q, extract_refined_snippet sim body query persona maxlen = travelNote ++ q) := by
  have h1 : sentencesOf body ≠ [] := by
    intro hs
    apply hres
    rw [hs, rankedOf_nil]
    rfl
  have hb : trimL body ≠ [] := trimL_ne_nil_of_sentences body h1
  have hdot : '.' ∈ greedy maxlen [] (rankedOf sim query (sentencesOf body)) :=
    greedy_ne_nil_dot maxlen _ hres
  have hnall : ¬ ((greedy maxlen [] (rankedOf sim query (sentencesOf body))).all
      pySpace = true) := by
    intro hall
    have := (List.all_eq_true.mp hall) '.' hdot
    simp [pySpace] at this
  constructor
  · intro hHR hTr
    have hne : persona ≠ [] := containsSub_ne_nil 'H' (('R') :: []) persona hHR
    have hann : personaAnnot persona
        (greedy maxlen [] (rankedOf sim query (sentencesOf body))) =
        hrNote ++ greedy maxlen [] (rankedOf sim query (sentencesOf body)) := by
      simp [personaAnnot, hne, hres, hHR, hTr]
    rw [extract_eq_of_buffer sim body query persona maxlen hb h1, hann]
    rw [if_pos (by simp [hrNote])]
    refine ⟨rdropL (greedy maxlen [] (rankedOf sim query (sentencesOf body))), ?_⟩
    have hshape : hrNote = 'F' :: (("or HR professionals: ").data) := by decide
    rw [hshape]
    exact trimL_cons_append 'F' (("or HR professionals: ").data) _ (by decide) hnall
  · intro hTr
    have hne : persona ≠ [] := containsSub_ne_nil 'T' (("ravel").data) persona hTr
    by_cases hHR : containsSub (("HR").data) persona = true
    · have hann : personaAnnot persona
          (greedy maxlen [] (rankedOf sim query (sentencesOf body))) =
          travelNote ++ (hrNote ++
            greedy maxlen [] (rankedOf sim query (sentencesOf body))) := by
        simp [personaAnnot, hne, hres, hHR, hTr]
      have hnall2 : ¬ ((hrNote ++
          greedy maxlen [] (rankedOf sim query (sentencesOf body))).all
            pySpace = true) := by
        intro hall
        have := (List.all_eq_true.mp hall) '.'
          (List.mem_append_right hrNote hdot)
        simp [pySpace] at this
      rw [extract_eq_of_buffer sim body query persona maxlen hb h1, hann]
      rw [if_pos (by simp [travelNote])]
      refine ⟨rdropL (hrNote ++
        greedy maxlen [] (rankedOf sim query (sentencesOf body))), ?_⟩
      have hshape : travelNote = 'T' :: (("ravel planner note: ").data) := by decide
      rw [hshape]
      exact trimL_cons_append 'T' (("ravel planner note: ").data) _ (by decide) hnall2
    · have hann : personaAnnot persona
          (greedy maxlen [] (rankedOf sim query (sentencesOf body))) =
          travelNote ++ greedy maxlen [] (rankedOf sim query (sentencesOf body)) := by
        simp [personaAnnot, hne, hres, hHR, hTr]
      rw [extract_eq_of_buffer sim body query persona maxlen hb h1, hann]
      rw [if_pos (by simp [travelNote])]
      refine ⟨rdropL (greedy maxlen [] (rankedOf sim query (sentencesOf body))), ?_⟩
      have hshape : travelNote = 'T' :: (("ravel planner note: ").data) := by decide
      rw [hshape]
      exact trimL_cons_append 'T' (("ravel planner note: ").data) _ (by decide) hnall

/-! ## Idempotence of clean_text -/

theorem toLower_idem (c : Char) : c.toLower.toLower = c.toLower := by
  by_cases h : c.toNat ≥ 65 ∧ c.toNat ≤ 90
  · obtain ⟨h1, h2⟩ := h
    have hc : Char.ofNat c.toNat = c := Char.ofNat_toNat c
    generalize hn : c.toNat = n at h1 h2 hc
    interval_cases n <;> rw [← hc] <;> decide
  · have hfix : c.toLower = c := by
      simp only [Char.toLower]
      rw [if_neg h]
    rw [hfix, hfix]

theorem dropWhile_idem (p : Char → Bool) : ∀ l : List Char,
    List.dropWhile p (List.dropWhile p l) = List.dropWhile p l
  | [] => rfl
  | c :: l => by
    rw [List.dropWhile_cons]
    by_cases hc : p c = true
    · rw [if_pos hc]
      exact dropWhile_idem p l
    · rw [if_neg hc, List.dropWhile_cons, if_neg hc]

theorem rdropL_idem (l : List Char) : rdropL (rdropL l) = rdropL l := by
  simp only [rdropL, List.reverse_reverse]
  rw [dropWhile_idem]

theorem collapseWsAux_cons_space_true (c : Char) (l : List Char) (hc : pySpace c = true) :
    collapseWsAux true (c :: l) = collapseWsAux true l := by
  simp [collapseWsAux, hc]

theorem collapseWsAux_cons_space_false (c : Char) (l : List Char) (hc : pySpace c = true) :
    collapseWsAux false (c :: l) = ' ' :: collapseWsAux true l := by
  simp [collapseWsAux, hc]

theorem collapseWsAux_cons_nonspace (c : Char) (l : List Char) (b : Bool)
    (hc : pySpace c = false) :
    collapseWsAux b (c :: l) = c :: collapseWsAux false l := by
  simp [collapseWsAux, hc]

theorem collapseWsAux_length_le : ∀ (l : List Char) (b : Bool),
    (collapseWsAux b l).length ≤ l.length
  | [], b => by cases b <;> simp [collapseWsAux]
  | c :: l, b => by
    by_cases hc : pySpace c = true
    · cases b
      · rw [collapseWsAux_cons_space_false c l hc]
        simpa using Nat.succ_le_succ (collapseWsAux_length_le l true)
      · rw [collapseWsAux_cons_space_true c l hc]
        simpa using Nat.le_succ_of_le (collapseWsAux_length_le l true)
    · have hc' : pySpace c = false := by simpa using hc
      rw [collapseWsAux_cons_nonspace c l b hc']
      simpa using Nat.succ_le_succ (collapseWsAux_length_le l false)

theorem dropWhile_collapseWsAux : ∀ (l : List Char) (b : Bool),
    List.dropWhile pySpace (collapseWsAux b l) = collapseWsAux true l
  | [], b => by cases b <;> rfl
  | c :: l, b => by
    by_cases hc : pySpace c = true
    · rw [collapseWsAux_cons_space_true c l hc]
      cases b
      · rw [collapseWsAux_cons_space_false c l hc, List.dropWhile_cons,
          if_pos (by decide : pySpace ' ' = true)]
        exact dropWhile_collapseWsAux l true
      · rw [collapseWsAux_cons_space_true c l hc]
        exact dropWhile_collapseWsAux l true
    · have hc' : pySpace c = false := by simpa using hc
      rw [collapseWsAux_cons_nonspace c l b hc',
        collapseWsAux_cons_nonspace c l true hc',
        List.dropWhile_cons, if_neg hc]

theorem collapseWsAux_idem : ∀ (l : List Char),
    (∀ b, collapseWsAux b (collapseWsAux true l) = collapseWsAux true l) ∧
    (collapseWsAux false (collapseWsAux false l) = collapseWsAux false l)
  | [] => ⟨fun b => by cases b <;> rfl, rfl⟩
  | c :: l => by
    obtain ⟨ih1, ih2⟩ := collapseWsAux_idem l
    by_cases hc : pySpace c = true
    · constructor
      · intro b
        rw [collapseWsAux_cons_space_true c l hc]
        exact ih1 b
      · rw [collapseWsAux_cons_space_false c l hc,
          collapseWsAux_cons_space_false ' ' (collapseWsAux true l) (by decide),
          ih1 true]
    · have hc' : pySpace c = false := by simpa using hc
      constructor
      · intro b
        rw [collapseWsAux_cons_nonspace c l true hc',
          collapseWsAux_cons_nonspace c (collapseWsAux false l) b hc', ih2]
      · rw [collapseWsAux_cons_nonspace c l false hc',
          collapseWsAux_cons_nonspace c (collapseWsAux false l) false hc', ih2]

theorem collapseWsAux_fixed_of_append : ∀ (p : List Char) (b : Bool) (t : List Char),
    collapseWsAux b (p ++ t) = p ++ t → collapseWsAux b p = p
  | [], b, _, _ => by cases b <;> rfl
  | c :: p, b, t, h => by
    by_cases hc : pySpace c = true
    · cases b
      · rw [List.cons_append, collapseWsAux_cons_space_false c (p ++ t) hc] at h
        injection h with h1 h2
        rw [collapseWsAux_cons_space_false c p hc, ← h1,
          collapseWsAux_fixed_of_append p true t h2]
      · rw [List.cons_append, collapseWsAux_cons_space_true c (p ++ t) hc] at h
        have hlen := collapseWsAux_length_le (p ++ t) true
        rw [h] at hlen
        simp at hlen
    · have hc' : pySpace c = false := by simpa using hc
      rw [List.cons_append, collapseWsAux_cons_nonspace c (p ++ t) b hc'] at h
      injection h with h1 h2
      rw [collapseWsAux_cons_nonspace c p b hc',
        collapseWsAux_fixed_of_append p false t h2]

theorem rdropL_decomp (z : List Char) :
    z = rdropL z ++ (z.reverse.takeWhile pySpace).reverse := by
  conv_lhs => rw [← List.reverse_reverse z,
    ← List.takeWhile_append_dropWhile pySpace z.reverse]
  rw [List.reverse_append]
  rfl

theorem mem_rdropL {c : Char} {z : List Char} (h : c ∈ rdropL z) : c ∈ z := by
  rw [rdropL_decomp z]
  exact List.mem_append_left _ h

theorem mem_ldropL {c : Char} {z : List Char} (h : c ∈ ldropL z) : c ∈ z := by
  rw [← List.takeWhile_append_dropWhile pySpace z]
  exact List.mem_append_right _ h

theorem mem_collapseWsAux : ∀ (l : List Char) (b : Bool) (c : Char),
    c ∈ collapseWsAux b l → c = ' ' ∨ c ∈ l
  | [], b, c, h => by cases b <;> simp [collapseWsAux] at h
  | d :: l, b, c, h => by
    by_cases hd : pySpace d = true
    · cases b
      · rw [collapseWsAux_cons_space_false d l hd] at h
        rcases List.mem_cons.mp h with rfl | h
        · exact Or.inl rfl
        · rcases mem_collapseWsAux l true c h with h | h
          · exact Or.inl h
          · exact Or.inr (List.mem_cons_of_mem d h)
      · rw [collapseWsAux_cons_space_true d l hd] at h
        rcases mem_collapseWsAux l true c h with h | h
        · exact Or.inl h
        · exact Or.inr (List.mem_cons_of_mem d h)
    · have hd' : pySpace d = false := by simpa using hd
      rw [collapseWsAux_cons_nonspace d l b hd'] at h
      rcases List.mem_cons.mp h with rfl | h
      · exact Or.inr (List.mem_cons_self ..)
      · rcases mem_collapseWsAux l false c h with h | h
        · exact Or.inl h
        · exact Or.inr (List.mem_cons_of_mem d h)

theorem map_eq_self_of_mem {f : Char → Char} : ∀ (l : List Char),
    (∀ c ∈ l, f c = c) → l.map f = l
  | [], _ => rfl
  | c :: l, h => by
    rw [List.map_cons, h c (List.mem_cons_self ..),
      map_eq_self_of_mem l (fun d hd => h d (List.mem_cons_of_mem c hd))]

/-- C9: `clean_text` is idempotent. -/
theorem c9_clean_text_idem (x : List Char) :
    clean_text (clean_text x) = clean_text x := by
  have key : ∀ w : List Char, trimL (collapseWs w) = rdropL (collapseWsAux true w) := by
    intro w
    simp only [trimL, ldropL, collapseWs]
    rw [dropWhile_collapseWsAux]
  set w := ((x.map Char.toLower).filter (fun c => !(pyPunct.contains c))) with hw
  have hy : clean_text x = rdropL (collapseWsAux true w) := by
    rw [clean_text, ← hw, key]
  have hmem : ∀ c ∈ clean_text x, c = ' ' ∨ c ∈ w := by
    intro c hc
    rw [hy] at hc
    exact mem_collapseWsAux w true c (mem_rdropL hc)
  have hmap : (clean_text x).map Char.toLower = clean_text x := by
    refine map_eq_self_of_mem _ ?_
    intro c hc
    rcases hmem c hc with rfl | hcw
    · decide
    · rw [hw] at hcw
      obtain ⟨a, _, rfl⟩ : ∃ a, a ∈ x ∧ Char.toLower a = c := by
        obtain ⟨hm, _⟩ := List.mem_filter.mp hcw
        obtain ⟨a, ha, rfl⟩ := List.mem_map.mp hm
        exact ⟨a, ha, rfl⟩
      exact toLower_idem a
  have hfil : (clean_text x).filter (fun c => !(pyPunct.contains c)) = clean_text x := by
    rw [List.filter_eq_self]
    intro c hc
    rcases hmem c hc with rfl | hcw
    · decide
    · exact (List.mem_filter.mp hcw).2
  have hfix : collapseWsAux true (clean_text x) = clean_text x := by
    rw [hy]
    have hz : collapseWsAux true (collapseWsAux true w) = collapseWsAux true w :=
      (collapseWsAux_idem w).1 true
    have hdec := rdropL_decomp (collapseWsAux true w)
    refine collapseWsAux_fixed_of_append (rdropL (collapseWsAux true w)) true
      (((collapseWsAux true w).reverse.takeWhile pySpace).reverse) ?_
    rw [← hdec]
    exact hz
  conv_lhs => rw [clean_text]
  rw [hmap, hfil, key, hfix, hy, rdropL_idem]

/-- C4 witness: the amended claim instantiated at `bodyC4` with the
personas "HR Manager" and "Travel Blogger". -/
theorem c4_witness :
    (∃ q, extract_refined_snippet none bodyC4 queryC4 (("HR Manager").data) 320 =
      hrNote ++ q) ∧
    (∃ q, extract_refined_snippet none bodyC4 queryC4 (("Travel Blogger").data) 320 =
      travelNote ++ q) :=
  ⟨(c4_persona_tagging none bodyC4 queryC4 (("HR Manager").data) 320
      (by decide)).1 (by decide) (by decide),
   (c4_persona_tagging none bodyC4 queryC4 (("Travel Blogger").data) 320
      (by decide)).2 (by decide)⟩
